import Mathlib

/-!
Verification of the emotion-driven music server (`app.py`).

The original logic of the program is (a) a non-repeating song rotation
policy per emotion category (`get_next_song`), and (b) a flag-based
playback state machine driven by the detection loop (`mjpeg_generator`)
and the client notification routes (`song_started`, `song_ended`).
This file embeds those parts shallowly and proves the specified
properties about them.
-/

namespace SongApp

/-- The playback history map `played_songs`: emotion label to the list of
song filenames served since the last rotation reset for that label. -/
abbrev PlayedMap := String → List String

/-- The catalog `emotion_to_songs`, read with `.get(emotion, [])`:
an unknown label yields the empty list. -/
def emotionToSongs (e : String) : List String :=
  if e = "happy" then ["happy1.mp3", "happy2.mp3"]
  else if e = "sad" then ["sad1.mp3", "sad2.mp3"]
  else if e = "angry" then ["angry1.mp3", "angry2.mp3"]
  else if e = "neutral" then ["neutral1.mp3", "neutral2.mp3"]
  else []

/-- `played_songs` starts as `{emotion: [] for emotion in emotion_to_songs}`. -/
def initialPlayed : PlayedMap := fun _ => []

/-- The history actually used by a pick: `get_next_song` resets
`played_songs[emotion]` to `[]` first when its length equals the
catalog's length. -/
def histAfterReset (played : PlayedMap) (e : String) : List String :=
  if (played e).length = (emotionToSongs e).length then [] else played e

/-- The local `remaining = list(set(songs) - set(played_songs[emotion]))`
of `get_next_song` (the catalog lists hold no duplicates, so list
filtering models the set difference). -/
def remainingFor (played : PlayedMap) (e : String) : List String :=
  (emotionToSongs e).filter (fun s => !((histAfterReset played e).contains s))

/-- Pointwise update of the history map at one emotion label. -/
def updateMap (played : PlayedMap) (e : String) (l : List String) : PlayedMap :=
  fun x => if x = e then l else played x

/-- `get_next_song(emotion)`.  `random.choice(remaining)` is modelled by an
arbitrary index `k` (taken modulo the length of `remaining`); choosing on an
empty list raises `IndexError`, modelled by the `Except` error. -/
def getNextSong (k : Nat) (played : PlayedMap) (e : String) :
    Except String (Option String × PlayedMap) :=
  if (emotionToSongs e).isEmpty then .ok (none, played)
  else
    match (remainingFor played e).get? (k % (remainingFor played e).length) with
    | none => .error "IndexError"
    | some choice =>
        .ok (some choice, updateMap played e (histAfterReset played e ++ [choice]))

/-- Invariant on reachable history maps: each history is duplicate-free and
drawn from the category's catalog. -/
def RotInv (played : PlayedMap) : Prop :=
  ∀ e, (played e).Nodup ∧ ∀ s ∈ played e, s ∈ emotionToSongs e

theorem rotInv_initial : RotInv initialPlayed := by
  intro e
  exact ⟨List.nodup_nil, fun s hs => absurd hs (List.not_mem_nil s)⟩

theorem catalog_nodup (e : String) : (emotionToSongs e).Nodup := by
  unfold emotionToSongs
  split_ifs <;> decide

theorem catalog_no_empty_name (e : String) : "" ∉ emotionToSongs e := by
  unfold emotionToSongs
  split_ifs <;> decide

theorem length_le_of_nodup_subset {l l' : List String}
    (hn : l.Nodup) (hn' : l'.Nodup) (hsub : ∀ s ∈ l, s ∈ l') :
    l.length ≤ l'.length := by
  have h1 : l.toFinset.card = l.length := List.toFinset_card_of_nodup hn
  have h2 : l'.toFinset.card = l'.length := List.toFinset_card_of_nodup hn'
  have hs : l.toFinset ⊆ l'.toFinset := by
    intro x hx
    rw [List.mem_toFinset] at hx ⊢
    exact hsub x hx
  calc l.length = l.toFinset.card := h1.symm
    _ ≤ l'.toFinset.card := Finset.card_le_card hs
    _ = l'.length := h2

theorem histAfterReset_nodup {played : PlayedMap} (hInv : RotInv played)
    (e : String) : (histAfterReset played e).Nodup := by
  unfold histAfterReset
  split
  · exact List.nodup_nil
  · exact (hInv e).1

theorem histAfterReset_subset {played : PlayedMap} (hInv : RotInv played)
    (e : String) : ∀ s ∈ histAfterReset played e, s ∈ emotionToSongs e := by
  unfold histAfterReset
  split
  · intro s hs; exact absurd hs (List.not_mem_nil s)
  · exact (hInv e).2

theorem remainingFor_ne_nil {played : PlayedMap} (hInv : RotInv played)
    {e : String} (hne : emotionToSongs e ≠ []) :
    remainingFor played e ≠ [] := by
  intro hnil
  have hall : ∀ s ∈ emotionToSongs e, s ∈ histAfterReset played e := by
    intro s hs
    have := List.filter_eq_nil_iff.mp hnil s hs
    simpa using this
  have hlen : (emotionToSongs e).length ≤ (histAfterReset played e).length :=
    length_le_of_nodup_subset (catalog_nodup e) (histAfterReset_nodup hInv e) hall
  unfold histAfterReset at hlen
  by_cases hfull : (played e).length = (emotionToSongs e).length
  · rw [if_pos hfull] at hlen
    simp at hlen
    exact hne hlen
  · rw [if_neg hfull] at hlen
    have hle : (played e).length ≤ (emotionToSongs e).length :=
      length_le_of_nodup_subset (hInv e).1 (catalog_nodup e) (hInv e).2
    exact hfull (Nat.le_antisymm hle hlen)

theorem remainingFor_mem {played : PlayedMap} {e : String} {c : String}
    (hc : c ∈ remainingFor played e) :
    c ∈ emotionToSongs e ∧ c ∉ histAfterReset played e := by
  unfold remainingFor at hc
  have := List.mem_filter.mp hc
  refine ⟨this.1, ?_⟩
  simpa using this.2

/-- Inversion for a successful pick: either the catalog was empty and nothing
changed, or the choice came from `remaining` and was appended. -/
theorem getNextSong_inv {k : Nat} {played : PlayedMap} {e : String}
    {res : Option String} {p' : PlayedMap}
    (h : getNextSong k played e = .ok (res, p')) :
    (res = none ∧ p' = played ∧ emotionToSongs e = []) ∨
    (∃ c, res = some c ∧ c ∈ remainingFor played e ∧
      p' = updateMap played e (histAfterReset played e ++ [c])) := by
  unfold getNextSong at h
  split at h
  · rename_i hemp
    left
    injection h with h'
    injection h' with ha hb
    exact ⟨ha.symm, hb.symm, List.isEmpty_iff.mp hemp⟩
  · rename_i hemp
    rcases hg : (remainingFor played e).get? (k % (remainingFor played e).length) with _ | c
    · rw [hg] at h
      exact absurd h (by simp)
    · rw [hg] at h
      right
      injection h with h'
      injection h' with ha hb
      exact ⟨c, ha.symm, List.get?_mem hg, hb.symm⟩

/-- A pick on a nonempty catalog always succeeds under the invariant, returning
the `remaining` element at the chosen index. -/
theorem getNextSong_total {played : PlayedMap} (hInv : RotInv played)
    (k : Nat) (e : String) :
    ∃ res p', getNextSong k played e = .ok (res, p') := by
  by_cases hemp : (emotionToSongs e).isEmpty
  · exact ⟨none, played, by unfold getNextSong; rw [if_pos hemp]⟩
  · have hne : emotionToSongs e ≠ [] := fun h => hemp (by simp [h])
    have hrem := remainingFor_ne_nil hInv hne
    have hlen : 0 < (remainingFor played e).length := List.length_pos.mpr hrem
    have hk : k % (remainingFor played e).length < (remainingFor played e).length :=
      Nat.mod_lt _ hlen
    refine ⟨some ((remainingFor played e).get ⟨_, hk⟩),
      updateMap played e (histAfterReset played e ++ [(remainingFor played e).get ⟨_, hk⟩]), ?_⟩
    unfold getNextSong
    rw [if_neg hemp, List.get?_eq_get hk]

/-- The invariant is preserved by every successful pick. -/
theorem rotInv_preserved {k : Nat} {played : PlayedMap} {e : String}
    {res : Option String} {p' : PlayedMap} (hInv : RotInv played)
    (h : getNextSong k played e = .ok (res, p')) : RotInv p' := by
  rcases getNextSong_inv h with ⟨_, hp, _⟩ | ⟨c, _, hc, hp⟩
  · exact hp ▸ hInv
  · subst hp
    intro e'
    unfold updateMap
    by_cases he : e' = e
    · rw [if_pos he]
      subst he
      obtain ⟨hcm, hcn⟩ := remainingFor_mem hc
      constructor
      · rw [List.nodup_append]
        refine ⟨histAfterReset_nodup hInv e', List.nodup_singleton c, ?_⟩
        intro a ha hb
        rw [List.mem_singleton.mp hb] at ha
        exact hcn ha
      · intro s hs
        rcases List.mem_append.mp hs with hs | hs
        · exact histAfterReset_subset hInv e' s hs
        · rw [List.mem_singleton.mp hs]; exact hcm
    · rw [if_neg he]
      exact hInv e'

theorem updateMap_same (played : PlayedMap) (e : String) (l : List String) :
    updateMap played e l e = l := by
  unfold updateMap; rw [if_pos rfl]

theorem updateMap_other (played : PlayedMap) (e : String) (l : List String)
    {e' : String} (h : e' ≠ e) : updateMap played e l e' = played e' := by
  unfold updateMap; rw [if_neg h]

theorem histAfterReset_eq_self {played : PlayedMap} {e : String}
    (h : (played e).length ≠ (emotionToSongs e).length) :
    histAfterReset played e = played e := by
  unfold histAfterReset; rw [if_neg h]

/-- A sequence of consecutive `get_next_song` calls on one category; `ks` gives
the random choices. -/
def pickSeq (e : String) (ks : List Nat) (played : PlayedMap) :
    Except String (List (Option String) × PlayedMap) :=
  match ks with
  | [] => .ok ([], played)
  | k :: ks =>
    match getNextSong k played e with
    | .error msg => .error msg
    | .ok (r, p) =>
      match pickSeq e ks p with
      | .error msg => .error msg
      | .ok (rs, p') => .ok (r :: rs, p')

/-- Running `ks.length` picks while the history still has room: every pick
succeeds with a song, and the picked songs extend the history in order. -/
theorem pickSeq_spec (e : String) (ks : List Nat) :
    ∀ (played : PlayedMap), RotInv played →
    (played e).length + ks.length ≤ (emotionToSongs e).length →
    ∃ (rs : List String) (p' : PlayedMap), pickSeq e ks played = .ok (rs.map some, p') ∧
      rs.length = ks.length ∧ p' e = played e ++ rs ∧ RotInv p' ∧
      ∀ e', e' ≠ e → p' e' = played e' := by
  induction ks with
  | nil =>
    intro played hInv _
    exact ⟨[], played, rfl, rfl, (List.append_nil _).symm, hInv, fun _ _ => rfl⟩
  | cons k ks ih =>
    intro played hInv hlen
    have hlt : (played e).length < (emotionToSongs e).length := by
      simp only [List.length_cons] at hlen
      omega
    obtain ⟨res, p1, hok⟩ := getNextSong_total hInv k e
    rcases getNextSong_inv hok with ⟨_, _, hcat⟩ | ⟨c, hres, hc, hp1⟩
    · rw [hcat] at hlt
      simp at hlt
    · subst hres
      have hhist : histAfterReset played e = played e :=
        histAfterReset_eq_self (Nat.ne_of_lt hlt)
      have hp1e : p1 e = played e ++ [c] := by
        rw [hp1, updateMap_same, hhist]
      have hInv1 : RotInv p1 := rotInv_preserved hInv hok
      have hlen1 : (p1 e).length + ks.length ≤ (emotionToSongs e).length := by
        rw [hp1e]
        simp only [List.length_append, List.length_singleton]
        simp only [List.length_cons] at hlen
        omega
      obtain ⟨rs, p', hrun, hrslen, hp'e, hInv', hframe⟩ := ih p1 hInv1 hlen1
      refine ⟨c :: rs, p', ?_, ?_, ?_, hInv', ?_⟩
      · simp only [pickSeq, hok, hrun, List.map_cons]
      · simp [hrslen]
      · rw [hp'e, hp1e, List.append_assoc]
        rfl
      · intro e' he'
        rw [hframe e' he', hp1, updateMap_other _ _ _ he']

/-- C1 helper: after a full cycle the history equals the whole catalog as a
set, and a reset pick can reach any catalog element. -/
theorem remainingFor_full {played : PlayedMap} {e : String}
    (hfull : (played e).length = (emotionToSongs e).length) :
    remainingFor played e = emotionToSongs e := by
  unfold remainingFor histAfterReset
  rw [if_pos hfull]
  apply List.filter_eq_self.mpr
  intro a _
  simp [List.contains]

theorem getNextSong_hits {played : PlayedMap} {e : String} {s : String}
    (hs : s ∈ remainingFor played e) (hne : emotionToSongs e ≠ []) :
    ∃ k p'', getNextSong k played e = .ok (some s, p'') := by
  obtain ⟨n, hn⟩ := List.mem_iff_get.mp hs
  refine ⟨n.1, updateMap played e (histAfterReset played e ++ [s]), ?_⟩
  unfold getNextSong
  rw [if_neg (by simpa using hne)]
  have hmod : n.1 % (remainingFor played e).length = n.1 := Nat.mod_eq_of_lt n.2
  rw [hmod, List.get?_eq_get n.2]
  simp only [List.get_eq_getElem] at hn
  simp [hn]

/-! ## Playback state machine -/

/-- The module-level mutable state of `app.py`: `next_emotion`,
`current_confidence`, `current_emotion`, `current_song`, `song_assigned`,
`song_playing`, and `played_songs`.  Confidence values are modelled as
rationals. -/
structure AppState where
  nextEmotion : Option String
  currentConfidence : ℚ
  currentEmotion : Option String
  currentSong : Option String
  songAssigned : Bool
  songPlaying : Bool
  played : PlayedMap

/-- The initial module-level state (lines 36-44 of `app.py`). -/
def initialState : AppState :=
  { nextEmotion := none, currentConfidence := 0, currentEmotion := none,
    currentSong := none, songAssigned := false, songPlaying := false,
    played := initialPlayed }

/-- Python's `max(emotions, key=emotions.get)` over the emotions dict,
paired with its score: the first entry with the maximal score wins ties,
as `max` keeps the earliest maximal element. -/
def maxByVal : List (String × ℚ) → Option (String × ℚ)
  | [] => none
  | p :: rest => some (rest.foldl (fun best q => if q.2 > best.2 then q else best) p)

/-- Lines 106-121: turn the detector outcome into `(dominant, confidence)`.
`none` stands for an exception from `detect_emotions` or an empty result
list; `some es` for `results[0]["emotions"]` (an empty dict also falls back
to neutral). -/
def classify : Option (List (String × ℚ)) → String × ℚ
  | none => ("neutral", 0)
  | some es =>
    match maxByVal es with
    | none => ("neutral", 0)
    | some (d, v) => (d, v)

/-- `next_emotion or "neutral"`: the empty string is the only falsy string. -/
def orNeutral (s : String) : String := if s = "" then "neutral" else s

/-- The locked-in state update of one detection tick (the `with state_lock`
block, lines 123-140): record the detection, and when no song is assigned
nor playing, lock the emotion and try to assign a song whose file exists. -/
def detectTick (fileExists : String → Bool) (k : Nat)
    (results : Option (List (String × ℚ))) (st : AppState) :
    Except String AppState :=
  let dc := classify results
  let st1 := { st with nextEmotion := some dc.1, currentConfidence := dc.2 }
  if !st.songAssigned && !st.songPlaying then
    let locked := orNeutral dc.1
    match getNextSong k st.played locked with
    | .error msg => .error msg
    | .ok (chosen, p') =>
      match chosen with
      | some c =>
        if (c != "") && fileExists c then
          .ok { st1 with
                currentEmotion := some locked, played := p',
                currentSong := some c, songAssigned := true }
        else
          .ok { st1 with
                currentEmotion := some locked, played := p',
                currentSong := none, songAssigned := false }
      | none =>
        .ok { st1 with
              currentEmotion := some locked, played := p',
              currentSong := none, songAssigned := false }
  else
    .ok st1

/-- `OkResponse` models the `{"ok": True}` JSON body. -/
structure OkResponse where
  ok : Bool

/-- `POST /song_started` (lines 186-192): set `song_playing` only. -/
def songStarted (st : AppState) : AppState × OkResponse :=
  ({ st with songPlaying := true }, ⟨true⟩)

/-- `POST /song_ended` (lines 194-203): clear the playing and assigned flags
and the song; `current_emotion` is deliberately kept. -/
def songEnded (st : AppState) : AppState × OkResponse :=
  ({ st with songPlaying := false, songAssigned := false, currentSong := none },
   ⟨true⟩)

/-- The three operations that mutate the shared state. -/
inductive Op where
  | detect (fileExists : String → Bool) (k : Nat)
      (results : Option (List (String × ℚ)))
  | started
  | ended

def applyOp (op : Op) (st : AppState) : Except String AppState :=
  match op with
  | .detect f k r => detectTick f k r st
  | .started => .ok (songStarted st).1
  | .ended => .ok (songEnded st).1

def runOps (ops : List Op) (st : AppState) : Except String AppState :=
  match ops with
  | [] => .ok st
  | op :: rest =>
    match applyOp op st with
    | .error msg => .error msg
    | .ok st' => runOps rest st'

/-- The at-most-one-outstanding-song invariant: the assigned flag is set
exactly when a song filename is recorded. -/
def FlagInv (st : AppState) : Prop :=
  st.songAssigned = true ↔ st.currentSong ≠ none

/-- A detection tick in a non-idle state only records the detection. -/
theorem detectTick_busy {st : AppState}
    (h : st.songAssigned = true ∨ st.songPlaying = true)
    (fileExists : String → Bool) (k : Nat)
    (results : Option (List (String × ℚ))) :
    detectTick fileExists k results st =
      .ok { st with
            nextEmotion := some (classify results).1,
            currentConfidence := (classify results).2 } := by
  unfold detectTick
  have hguard : (!st.songAssigned && !st.songPlaying) = false := by
    rcases h with h | h <;> simp [h]
  rw [hguard]
  simp

/-- Idle tick, successful assignment branch: the rotation pick returned a
(nonempty-named) song and its file exists. -/
theorem detectTick_idle_assign {st : AppState}
    (hA : st.songAssigned = false) (hP : st.songPlaying = false)
    {f : String → Bool} {k : Nat} {r : Option (List (String × ℚ))}
    {c : String} {p' : PlayedMap}
    (hok : getNextSong k st.played (orNeutral (classify r).1) = .ok (some c, p'))
    (hc : ((c != "") && f c) = true) :
    detectTick f k r st =
      .ok { st with
            nextEmotion := some (classify r).1,
            currentConfidence := (classify r).2,
            currentEmotion := some (orNeutral (classify r).1),
            played := p', currentSong := some c, songAssigned := true } := by
  unfold detectTick
  rw [hA, hP]
  simp only [Bool.not_false, Bool.and_self, if_true, hok, hc, if_pos]

/-- Idle tick, no-assignment branch: nothing returned, or the file check
failed; the machine stays idle apart from the lock update. -/
theorem detectTick_idle_noassign {st : AppState}
    (hA : st.songAssigned = false) (hP : st.songPlaying = false)
    {f : String → Bool} {k : Nat} {r : Option (List (String × ℚ))}
    {res : Option String} {p' : PlayedMap}
    (hok : getNextSong k st.played (orNeutral (classify r).1) = .ok (res, p'))
    (hno : res = none ∨ ∃ c, res = some c ∧ ((c != "") && f c) = false) :
    detectTick f k r st =
      .ok { st with
            nextEmotion := some (classify r).1,
            currentConfidence := (classify r).2,
            currentEmotion := some (orNeutral (classify r).1),
            played := p', currentSong := none, songAssigned := false } := by
  unfold detectTick
  rw [hA, hP]
  rcases hno with rfl | ⟨c, rfl, hc⟩
  · simp only [Bool.not_false, Bool.and_self, if_true, hok]
  · simp only [Bool.not_false, Bool.and_self, if_true, hok, hc, if_false,
      Bool.false_eq_true]

theorem applyOp_flagInv {op : Op} {st st' : AppState} (hFI : FlagInv st)
    (h : applyOp op st = .ok st') : FlagInv st' := by
  cases op with
  | detect f k r =>
    simp only [applyOp] at h
    unfold detectTick at h
    simp only [] at h
    split at h
    · split at h
      · exact absurd h (by simp)
      · rename_i chosen p' heq
        split at h
        · split at h
          · injection h with h'
            subst h'
            simp [FlagInv]
          · injection h with h'
            subst h'
            simp [FlagInv]
        · injection h with h'
          subst h'
          simp [FlagInv]
    · injection h with h'
      subst h'
      simpa [FlagInv] using hFI
  | started =>
    simp only [applyOp, songStarted] at h
    injection h with h'
    subst h'
    simpa [FlagInv] using hFI
  | ended =>
    simp only [applyOp, songEnded] at h
    injection h with h'
    subst h'
    simp [FlagInv]

theorem runOps_flagInv (ops : List Op) :
    ∀ st st', FlagInv st → runOps ops st = .ok st' → FlagInv st' := by
  induction ops with
  | nil =>
    intro st st' hFI h
    injection h with h'
    exact h' ▸ hFI
  | cons op rest ih =>
    intro st st' hFI h
    unfold runOps at h
    split at h
    · exact absurd h (by simp)
    · rename_i st1 heq
      exact ih st1 st' (applyOp_flagInv hFI heq) h

/-- While the client is playing (or a song is assigned), any run of detect
ticks leaves the assignment part of the state untouched. -/
theorem runDetects_frame (ops : List Op) :
    ∀ st st', st.songPlaying = true →
    (∀ op ∈ ops, ∃ f k r, op = Op.detect f k r) →
    runOps ops st = .ok st' →
    st'.songPlaying = true ∧ st'.songAssigned = st.songAssigned ∧
    st'.currentEmotion = st.currentEmotion ∧
    st'.currentSong = st.currentSong ∧ st'.played = st.played := by
  induction ops with
  | nil =>
    intro st st' hP _ h
    injection h with h'
    subst h'
    exact ⟨hP, rfl, rfl, rfl, rfl⟩
  | cons op rest ih =>
    intro st st' hP hops h
    obtain ⟨f, k, r, rfl⟩ := hops op (List.mem_cons_self op rest)
    unfold runOps at h
    simp only [applyOp] at h
    rw [detectTick_busy (Or.inr hP) f k r] at h
    have hrest := ih _ st' (by simpa using hP)
      (fun op hop => hops op (List.mem_cons_of_mem _ hop)) h
    simpa using hrest

/-! ## Stream loop (camera-unavailable and read-failure handling) -/

/-- Whether the module-level name `np` is bound in `app.py`: the import
statements (lines 1-8 and 216) bind `os`, `time`, `random`, `threading`,
`BytesIO`, the flask names, `cv2`, `FER` and `atexit`; no `numpy` import
appears, so `np` is unbound. -/
def npDefined : Bool := false

/-- Outcome of one iteration of the `while True` loop in `mjpeg_generator`
(lines 85-98), up to the detection block. -/
inductive IterOutcome where
  | yieldBlank
  | skipShortPause
  | proceedWithFrame
  | nameError (n : String)
  deriving DecidableEq

/-- Lines 86-98: if the camera cannot be opened, the code builds a blank
image with `np.ones` - which evaluates the global name `np` and raises
`NameError` when it is unbound - before yielding; if the frame read fails,
it sleeps briefly and skips the iteration; otherwise it proceeds with the
frame. -/
def streamIterOutcome (cameraOpen : Bool) (readOk : Bool) : IterOutcome :=
  if cameraOpen = false then
    if npDefined then .yieldBlank else .nameError "np"
  else if readOk = false then .skipShortPause
  else .proceedWithFrame

/-! ## Claim theorems -/

/-- C1: for every emotion category with a nonempty catalog of N songs, any N
consecutive rotation picks starting from the empty history return N distinct
songs whose set equals the full catalog, and the (N+1)-th pick may return any
catalog item again. -/
theorem C1_rotation_full_cycle (e : String) (ks : List Nat)
    (hne : emotionToSongs e ≠ [])
    (hlen : ks.length = (emotionToSongs e).length) :
    ∃ (rs : List String) (p' : PlayedMap), pickSeq e ks initialPlayed = .ok (rs.map some, p') ∧
      rs.length = (emotionToSongs e).length ∧ rs.Nodup ∧
      rs.toFinset = (emotionToSongs e).toFinset ∧
      ∀ s ∈ emotionToSongs e, ∃ k p'', getNextSong k p' e = .ok (some s, p'') := by
  obtain ⟨rs, p', hrun, hrslen, hp'e, hInv', _⟩ :=
    pickSeq_spec e ks initialPlayed rotInv_initial (by simp [initialPlayed, hlen])
  have hrs : p' e = rs := by simpa [initialPlayed] using hp'e
  have hnd : rs.Nodup := hrs ▸ (hInv' e).1
  have hsub : ∀ s ∈ rs, s ∈ emotionToSongs e := fun s hs => (hInv' e).2 s (hrs ▸ hs)
  have hlen' : rs.length = (emotionToSongs e).length := hrslen.trans hlen
  have hfin : rs.toFinset = (emotionToSongs e).toFinset := by
    apply Finset.eq_of_subset_of_card_le
    · intro x hx
      rw [List.mem_toFinset] at hx ⊢
      exact hsub x hx
    · rw [List.toFinset_card_of_nodup hnd,
        List.toFinset_card_of_nodup (catalog_nodup e), hlen']
  refine ⟨rs, p', hrun, hlen', hnd, hfin, ?_⟩
  intro s hs
  have hfull : (p' e).length = (emotionToSongs e).length := by rw [hrs, hlen']
  have hrem : remainingFor p' e = emotionToSongs e := remainingFor_full hfull
  exact getNextSong_hits (hrem ▸ hs) hne

theorem C1_rotation_full_cycle_witness :
    ∃ (rs : List String) (p' : PlayedMap), pickSeq "happy" [0, 0] initialPlayed = .ok (rs.map some, p') ∧
      rs.length = (emotionToSongs "happy").length ∧ rs.Nodup ∧
      rs.toFinset = (emotionToSongs "happy").toFinset ∧
      ∀ s ∈ emotionToSongs "happy",
        ∃ k p'', getNextSong k p' "happy" = .ok (some s, p'') :=
  C1_rotation_full_cycle "happy" [0, 0] (by decide) (by decide)

/-- C3: `song_ended` always clears `song_assigned`, `song_playing` and
`current_song`, keeps the locked emotion, and answers ok; on an already idle
state it is a no-op. -/
theorem C3_client_ended (st : AppState) :
    ((songEnded st).1.songAssigned = false ∧ (songEnded st).1.songPlaying = false ∧
     (songEnded st).1.currentSong = none ∧
     (songEnded st).1.currentEmotion = st.currentEmotion ∧
     (songEnded st).2.ok = true) ∧
    (st.songAssigned = false ∧ st.songPlaying = false ∧ st.currentSong = none →
      (songEnded st).1 = st) := by
  constructor
  · exact ⟨rfl, rfl, rfl, rfl, rfl⟩
  · rintro ⟨hA, hP, hS⟩
    cases st
    simp_all [songEnded]

theorem C3_client_ended_witness :
    (songEnded initialState).1 = initialState ∧
    (songEnded initialState).2.ok = true :=
  ⟨(C3_client_ended initialState).2 ⟨rfl, rfl, rfl⟩,
   (C3_client_ended initialState).1.2.2.2.2⟩

/-- C4: a detection tick in a non-idle state (a song assigned or playing)
only updates the detected emotion and confidence; the locked emotion, the
assignment, both flags and the history are untouched. -/
theorem C4_detect_busy (fileExists : String → Bool) (k : Nat)
    (results : Option (List (String × ℚ))) (st : AppState)
    (h : st.songAssigned = true ∨ st.songPlaying = true) :
    ∃ st', detectTick fileExists k results st = .ok st' ∧
      st'.nextEmotion = some (classify results).1 ∧
      st'.currentConfidence = (classify results).2 ∧
      st'.currentEmotion = st.currentEmotion ∧
      st'.currentSong = st.currentSong ∧
      st'.songAssigned = st.songAssigned ∧
      st'.songPlaying = st.songPlaying ∧
      st'.played = st.played :=
  ⟨_, detectTick_busy h fileExists k results, rfl, rfl, rfl, rfl, rfl, rfl, rfl⟩

theorem C4_detect_busy_witness :
    ∃ st', detectTick (fun _ => false) 0 none
        { initialState with songPlaying := true } = .ok st' ∧
      st'.nextEmotion = some (classify none).1 ∧
      st'.currentConfidence = (classify none).2 ∧
      st'.currentEmotion = { initialState with songPlaying := true }.currentEmotion ∧
      st'.currentSong = { initialState with songPlaying := true }.currentSong ∧
      st'.songAssigned = { initialState with songPlaying := true }.songAssigned ∧
      st'.songPlaying = { initialState with songPlaying := true }.songPlaying ∧
      st'.played = { initialState with songPlaying := true }.played :=
  C4_detect_busy (fun _ => false) 0 none _ (Or.inr rfl)

/-- C5: `song_started` sets only `song_playing` and answers ok; every other
component of the state is unchanged, so a duplicate or premature call is a
harmless no-op. -/
theorem C5_client_started (st : AppState) :
    (songStarted st).1.songPlaying = true ∧
    (songStarted st).1.songAssigned = st.songAssigned ∧
    (songStarted st).1.currentSong = st.currentSong ∧
    (songStarted st).1.currentEmotion = st.currentEmotion ∧
    (songStarted st).1.nextEmotion = st.nextEmotion ∧
    (songStarted st).1.currentConfidence = st.currentConfidence ∧
    (songStarted st).1.played = st.played ∧
    (songStarted st).2.ok = true ∧
    (st.songPlaying = true → (songStarted st).1 = st) := by
  refine ⟨rfl, rfl, rfl, rfl, rfl, rfl, rfl, rfl, ?_⟩
  intro hP
  cases st
  simp_all [songStarted]

theorem C5_client_started_witness :
    (songStarted initialState).1.songPlaying = true ∧
    (songStarted { initialState with songPlaying := true }).1 =
      { initialState with songPlaying := true } :=
  ⟨(C5_client_started initialState).1,
   (C5_client_started { initialState with songPlaying := true }).2.2.2.2.2.2.2.2 rfl⟩

/-- C6: a pick on a category whose catalog entry is empty or absent returns
none, raises nothing, and leaves every history unchanged. -/
theorem C6_unknown_category (k : Nat) (played : PlayedMap) (e : String)
    (h : emotionToSongs e = []) :
    getNextSong k played e = .ok (none, played) := by
  unfold getNextSong
  rw [if_pos (by simp [h])]

theorem C6_unknown_category_witness :
    getNextSong 0 initialPlayed "fear" = .ok (none, initialPlayed) :=
  C6_unknown_category 0 initialPlayed "fear" rfl

/-- C7: under the rotation invariant no history is ever longer than its
catalog, every pick preserves the invariant, and a full history is reset so
that every catalog song becomes eligible again. -/
theorem C7_history_invariant (k : Nat) (played : PlayedMap) (e : String)
    (hInv : RotInv played) :
    (∀ e', (played e').length ≤ (emotionToSongs e').length) ∧
    (∀ res p', getNextSong k played e = .ok (res, p') →
      RotInv p' ∧ ∀ e', (p' e').length ≤ (emotionToSongs e').length) ∧
    ((played e).length = (emotionToSongs e).length →
      histAfterReset played e = [] ∧ remainingFor played e = emotionToSongs e) := by
  have hbound : ∀ (p : PlayedMap), RotInv p →
      ∀ e', (p e').length ≤ (emotionToSongs e').length :=
    fun p hp e' => length_le_of_nodup_subset (hp e').1 (catalog_nodup e') (hp e').2
  refine ⟨hbound played hInv, ?_, ?_⟩
  · intro res p' hok
    have hInv' := rotInv_preserved hInv hok
    exact ⟨hInv', hbound p' hInv'⟩
  · intro hfull
    refine ⟨?_, remainingFor_full hfull⟩
    unfold histAfterReset
    rw [if_pos hfull]

theorem C7_history_invariant_witness :
    (∀ e', (initialPlayed e').length ≤ (emotionToSongs e').length) ∧
    (∀ res p', getNextSong 0 initialPlayed "happy" = .ok (res, p') →
      RotInv p' ∧ ∀ e', (p' e').length ≤ (emotionToSongs e').length) ∧
    ((initialPlayed "happy").length = (emotionToSongs "happy").length →
      histAfterReset initialPlayed "happy" = [] ∧
      remainingFor initialPlayed "happy" = emotionToSongs "happy") :=
  C7_history_invariant 0 initialPlayed "happy" rotInv_initial

/-- C8: the camera-unavailable branch of the stream loop does not yield a
placeholder frame: it evaluates the unbound name `np` and so raises
`NameError`; a failed frame read, by contrast, does skip the iteration
with a short pause. -/
theorem C8_camera_branch (readOk : Bool) :
    streamIterOutcome false readOk = .nameError "np" ∧
    streamIterOutcome true false = .skipShortPause :=
  ⟨rfl, rfl⟩

/-- C9: every state reachable from the initial state through detection
ticks and client notifications has the assigned flag set exactly when a
song is recorded. -/
theorem C9_flag_invariant (ops : List Op) (st' : AppState)
    (h : runOps ops initialState = .ok st') : FlagInv st' :=
  runOps_flagInv ops initialState st' (by simp [FlagInv, initialState]) h

theorem C9_flag_invariant_witness : FlagInv initialState :=
  C9_flag_invariant [] initialState rfl

/-- C2: a detection tick in the idle state locks the detected (or default
neutral) emotion; if the rotation pick yields a song whose file exists the
tick assigns it and sets the assigned flag, otherwise the machine stays idle
with no song and a cleared flag, the lock still updated. -/
theorem C2_detect_idle (fileExists : String → Bool) (k : Nat)
    (results : Option (List (String × ℚ))) (st : AppState)
    (hInv : RotInv st.played)
    (hA : st.songAssigned = false) (hP : st.songPlaying = false) :
    ∃ st', detectTick fileExists k results st = .ok st' ∧
      st'.currentEmotion = some (orNeutral (classify results).1) ∧
      st'.nextEmotion = some (classify results).1 ∧
      st'.currentConfidence = (classify results).2 ∧
      st'.songPlaying = false ∧
      (∀ c p', getNextSong k st.played (orNeutral (classify results).1) =
          .ok (some c, p') → fileExists c = true →
        st'.currentSong = some c ∧ st'.songAssigned = true) ∧
      (∀ res p', getNextSong k st.played (orNeutral (classify results).1) =
          .ok (res, p') →
        (res = none ∨ ∃ c, res = some c ∧ fileExists c = false) →
        st'.currentSong = none ∧ st'.songAssigned = false) := by
  obtain ⟨res, p', hok⟩ := getNextSong_total hInv k (orNeutral (classify results).1)
  rcases res with _ | c
  · have hd := detectTick_idle_noassign (f := fileExists) hA hP hok (Or.inl rfl)
    refine ⟨_, hd, rfl, rfl, rfl, hP, ?_, ?_⟩
    · intro c p'' hok2 _
      rw [hok] at hok2
      exact absurd hok2 (by simp)
    · intro res0 p0 _ _
      exact ⟨rfl, rfl⟩
  · by_cases hf : fileExists c = true
    · have hcne : c ≠ "" := by
        have hcmem : c ∈ emotionToSongs (orNeutral (classify results).1) := by
          rcases getNextSong_inv hok with ⟨h1, _, _⟩ | ⟨c', hc', hmem, _⟩
          · exact absurd h1 (by simp)
          · injection hc' with hcc
            exact hcc ▸ (remainingFor_mem hmem).1
        intro hce
        rw [hce] at hcmem
        exact catalog_no_empty_name _ hcmem
      have hcb : ((c != "") && fileExists c) = true := by
        simp [hf, bne_iff_ne, hcne]
      have hd := detectTick_idle_assign hA hP hok hcb
      refine ⟨_, hd, rfl, rfl, rfl, hP, ?_, ?_⟩
      · intro c0 p0 hok2 _
        rw [hok] at hok2
        injection hok2 with h'
        injection h' with h1 h2
        injection h1 with h1'
        exact ⟨by rw [h1'], rfl⟩
      · intro res0 p0 hok2 hcase
        rw [hok] at hok2
        rcases hcase with rfl | ⟨c0, rfl, hf0⟩
        · exact absurd hok2 (by simp)
        · exfalso
          have hcc : c = c0 := by
            injection hok2 with h'
            injection h' with h1 _
            injection h1
          rw [← hcc, hf] at hf0
          exact absurd hf0 (by simp)
    · have hff : fileExists c = false := by
        revert hf
        cases fileExists c <;> simp
      have hcb : ((c != "") && fileExists c) = false := by
        simp [hff]
      have hd := detectTick_idle_noassign hA hP hok (Or.inr ⟨c, rfl, hcb⟩)
      refine ⟨_, hd, rfl, rfl, rfl, hP, ?_, ?_⟩
      · intro c0 p0 hok2 hf0
        exfalso
        rw [hok] at hok2
        have hcc : c = c0 := by
          injection hok2 with h'
          injection h' with h1 _
          injection h1
        rw [← hcc, hff] at hf0
        exact absurd hf0 (by simp)
      · intro res0 p0 _ _
        exact ⟨rfl, rfl⟩

theorem C2_detect_idle_witness :
    ∃ st', detectTick (fun _ => true) 0 none initialState = .ok st' ∧
      st'.currentEmotion = some (orNeutral (classify none).1) ∧
      st'.nextEmotion = some (classify none).1 ∧
      st'.currentConfidence = (classify none).2 ∧
      st'.songPlaying = false ∧
      (∀ c p', getNextSong 0 initialState.played (orNeutral (classify none).1) =
          .ok (some c, p') → (fun _ => true : String → Bool) c = true →
        st'.currentSong = some c ∧ st'.songAssigned = true) ∧
      (∀ res p', getNextSong 0 initialState.played (orNeutral (classify none).1) =
          .ok (res, p') →
        (res = none ∨ ∃ c, res = some c ∧ (fun _ => true : String → Bool) c = false) →
        st'.currentSong = none ∧ st'.songAssigned = false) :=
  C2_detect_idle (fun _ => true) 0 none initialState rotInv_initial rfl rfl

/-- C10: a start notification in the idle state leaves the machine playing
but unassigned, and from there no run of detection ticks (before a
`song_ended`) assigns a song or advances the locked emotion. -/
theorem C10_started_idle_blocks (st : AppState) (hA : st.songAssigned = false)
    (ops : List Op) (hops : ∀ op ∈ ops, ∃ f k r, op = Op.detect f k r)
    (st' : AppState) (hrun : runOps ops (songStarted st).1 = .ok st') :
    (songStarted st).1.songPlaying = true ∧
    (songStarted st).1.songAssigned = false ∧
    st'.songPlaying = true ∧ st'.songAssigned = false ∧
    st'.currentEmotion = st.currentEmotion ∧
    st'.currentSong = st.currentSong := by
  obtain ⟨h1, h2, h3, h4, _⟩ :=
    runDetects_frame ops (songStarted st).1 st' rfl hops hrun
  exact ⟨rfl, hA, h1, h2.trans hA, h3, h4⟩

theorem C10_started_idle_blocks_witness :
    (songStarted initialState).1.songPlaying = true ∧
    (songStarted initialState).1.songAssigned = false ∧
    (songStarted initialState).1.songPlaying = true ∧
    (songStarted initialState).1.songAssigned = false ∧
    (songStarted initialState).1.currentEmotion = initialState.currentEmotion ∧
    (songStarted initialState).1.currentSong = initialState.currentSong :=
  C10_started_idle_blocks initialState rfl [] (by simp)
    (songStarted initialState).1 rfl

end SongApp
